import Mathlib

/-!
Shallow embedding of `libnss-netns` (src/src/lib.rs), an NSS host module that
resolves network-namespace names to the IP addresses configured inside the
namespace, by shelling out to the `ip` tool.

Modelling conventions:
* Rust `panic!`-like aborts (`.expect(..)` at lib.rs:91 and `unreachable!()`
  at lib.rs:105/122) are modelled by `Option`: a result of `none` means the
  call panicked; `some r` means the call returned response `r`.
* External collaborators (spawning the `ip` binary, `String::from_utf8`,
  `serde_json::from_str`, `str::parse::<IpAddr>`) are fields of an `Env`
  record: the embedding is parametric in their behaviour, and every theorem
  quantifies over the environment.
* Everything downstream of those collaborators (argument construction, JSON
  field extraction as done by the serde derives, filtering, classification,
  response assembly) is translated directly from the source.
-/

namespace NssNetns

/-- Model of `std::net::Ipv4Addr`: four octets. Only equality matters to the
program, so the octets are plain naturals. -/
structure Ipv4Addr where
  o1 : Nat
  o2 : Nat
  o3 : Nat
  o4 : Nat
deriving DecidableEq, Repr

/-- Model of `std::net::Ipv6Addr`: eight 16-bit segments. -/
structure Ipv6Addr where
  s1 : Nat
  s2 : Nat
  s3 : Nat
  s4 : Nat
  s5 : Nat
  s6 : Nat
  s7 : Nat
  s8 : Nat
deriving DecidableEq, Repr

/-- Model of `std::net::IpAddr`. -/
inductive IpAddr where
  | V4 (a : Ipv4Addr)
  | V6 (a : Ipv6Addr)
deriving DecidableEq, Repr

/-- `IpAddr::is_ipv6` (used at lib.rs:141). -/
def IpAddr.isV6 : IpAddr → Bool
  | .V4 _ => false
  | .V6 _ => true

/-- The `family` string tag the Rust code would filter this address under:
`"inet"` for v4, `"inet6"` for v6 (cf. the `af_filter` table, lib.rs:72-75). -/
def IpAddr.familyTag : IpAddr → String
  | .V4 _ => "inet"
  | .V6 _ => "inet6"

/-- `struct LinkAddress` (lib.rs:14-19): one serde-deserialized address-info
record. The Rust field `local` is spelled `localAddr` here because `local` is
a Lean keyword; it still deserializes from the JSON key `"local"`. -/
structure LinkAddress where
  family : String
  localAddr : String
  scope : String
deriving DecidableEq, Repr

/-- `struct LinkInfo` (lib.rs:21-25): one serde-deserialized interface. -/
structure LinkInfo where
  link_type : String
  addr_info : List LinkAddress
deriving DecidableEq, Repr

/-- `libnss::host::AddressFamily` (the three variants the crate exposes; the
source matches `IPv6` and `IPv4 | _`, so a catch-all variant is needed). -/
inductive AddressFamily where
  | IPv4
  | IPv6
  | Unspecified
deriving DecidableEq, Repr

/-- `libnss::host::Addresses`: a family-pure address vector. -/
inductive Addresses where
  | V4 (addrs : List Ipv4Addr)
  | V6 (addrs : List Ipv6Addr)
deriving DecidableEq, Repr

/-- `libnss::host::Host` (the fields the source constructs, lib.rs:112-115). -/
structure Host where
  name : String
  aliases : List String
  addresses : Addresses
deriving DecidableEq, Repr

/-- `libnss::interop::Response` restricted to the variants the source
produces: `Success`, `NotFound`, `Unavail`. -/
inductive Response (α : Type) where
  | Success (v : α)
  | NotFound
  | Unavail
deriving DecidableEq, Repr

/-- A JSON value, the parse result of `serde_json::from_str` into
`serde_json::Value`. -/
inductive Json where
  | null
  | bool (b : Bool)
  | num (n : Int)
  | str (s : String)
  | arr (elems : List Json)
  | obj (fields : List (String × Json))

/-- `serde_json::Value::as_array` (lib.rs:196, 236). -/
def Json.asArray : Json → Option (List Json)
  | .arr elems => some elems
  | _ => none

/-- Extract a named field of a JSON object, as serde does when deserializing a
struct field. -/
def Json.getField (j : Json) (key : String) : Option Json :=
  match j with
  | .obj fields => (fields.find? (fun p => p.1 == key)).map (fun p => p.2)
  | _ => none

/-- A JSON string coerced to a Lean string, as serde does for `String`
fields. -/
def Json.asString : Json → Option String
  | .str s => some s
  | _ => none

/-- serde derive for `LinkAddress`: requires string fields `family`, `local`,
`scope`; extra fields are ignored, a missing or non-string field fails. -/
def linkAddressFromJson (j : Json) : Option LinkAddress :=
  match (j.getField "family").bind Json.asString with
  | none => none
  | some fam =>
    match (j.getField "local").bind Json.asString with
    | none => none
    | some loc =>
      match (j.getField "scope").bind Json.asString with
      | none => none
      | some sc => some ⟨fam, loc, sc⟩

/-- serde derive for `LinkInfo`: requires a string field `link_type` and an
array field `addr_info` whose every element deserializes as a `LinkAddress`
(one bad element fails the whole `LinkInfo`, as serde's `Vec` impl does). -/
def linkInfoFromJson (j : Json) : Option LinkInfo :=
  match (j.getField "link_type").bind Json.asString with
  | none => none
  | some lt =>
    match (j.getField "addr_info").bind Json.asArray with
    | none => none
    | some elems =>
      match elems.mapM linkAddressFromJson with
      | none => none
      | some addrs => some ⟨lt, addrs⟩

/-- serde derive for `Netns` (lib.rs:27-30): a string field `name`. -/
def netnsFromJson (j : Json) : Option String :=
  (j.getField "name").bind Json.asString

/-- `std::process::Output` as the source consumes it: the exit status and the
raw bytes of stdout (stderr is never read). -/
structure ProcOutput where
  status : Int
  stdout : List Nat
deriving DecidableEq, Repr

/-- The external collaborators: one record of environment behaviour per call.
`ipCmd args` models `Command::new("ip").args(args).output()` (`Except.error`
is the spawn-failure `Err` branch); `decodeUtf8` models
`String::from_utf8`; `parseJson` models `serde_json::from_str::<Value>`;
`parseIp` models `str::parse::<std::net::IpAddr>`. -/
structure Env where
  ipCmd : List String → Except String ProcOutput
  decodeUtf8 : List Nat → Option String
  parseJson : String → Option Json
  parseIp : String → Option IpAddr

/-- The argument vector built by `ip_addr` (lib.rs:174-184):
`-json [-n <netns>] address`. -/
def ipAddrArgs (netns : Option String) : List String :=
  (["-json"] ++ (match netns with
    | some ns => ["-n", ns]
    | none => [])) ++ ["address"]

/-- The argument vector built by `ip_netns_ls` (lib.rs:224):
`-json netns ls`. -/
def ipNetnsArgs : List String := ["-json", "netns", "ls"]

/-- `fn ip_addr` (lib.rs:173-221): spawn `ip -json [-n ns] address`, decode
stdout as UTF-8, parse it as JSON, require a top-level array, and deserialize
each element as a `LinkInfo`, silently skipping (with a logged warning)
elements that fail. The exit status of the process is never inspected. -/
def runIpAddr (env : Env) (netns : Option String) :
    Except String (List LinkInfo) :=
  match env.ipCmd (ipAddrArgs netns) with
  | .error e => .error e
  | .ok output =>
    match env.decodeUtf8 output.stdout with
    | none => .error "invalid utf-8"
    | some s =>
      match env.parseJson s with
      | none => .error "invalid JSON"
      | some j =>
        match j.asArray with
        | none => .error "failed to parse JSON as array"
        | some elems => .ok (elems.filterMap linkInfoFromJson)

/-- `fn ip_netns_ls` (lib.rs:223-260): spawn `ip -json netns ls`, decode and
parse stdout the same way, and deserialize each element as a `Netns`,
skipping bad elements. The exit status is never inspected. -/
def runIpNetnsLs (env : Env) : Except String (List String) :=
  match env.ipCmd ipNetnsArgs with
  | .error e => .error e
  | .ok output =>
    match env.decodeUtf8 output.stdout with
    | none => .error "invalid utf-8"
    | some s =>
      match env.parseJson s with
      | none => .error "invalid JSON"
      | some j =>
        match j.asArray with
        | none => .error "failed to parse JSON as array"
        | some elems => .ok (elems.filterMap netnsFromJson)

/-- The `af_filter` table (lib.rs:72-75): `IPv6 => "inet6"`,
`IPv4 | _ => "inet"`. -/
def afFilter : AddressFamily → String
  | .IPv6 => "inet6"
  | _ => "inet"

/-- The `.map(|addr| addr.local.parse().expect("not an IP address"))`
stage (lib.rs:90-93), applied to the records that survived the family and
scope filters. `none` models the panic of `.expect` at the first literal the
IP parser rejects. -/
def parseSurvivors (env : Env) : List LinkAddress → Option (List IpAddr)
  | [] => some []
  | r :: rest =>
    match env.parseIp r.localAddr with
    | none => none
    | some a => (parseSurvivors env rest).map (fun as => a :: as)

/-- The per-interface pipeline of lib.rs:84-95: filter `addr_info` by family
tag, then drop `scope == "link"`, then parse every survivor. -/
def classifyAddrs (env : Env) (af : String) (link : LinkInfo) :
    Option (List IpAddr) :=
  parseSurvivors env
    ((link.addr_info.filter (fun a => a.family == af)).filter
      (fun a => a.scope != "link"))

/-- The outer pipeline of lib.rs:79-99 applied to the non-loopback
interfaces, before flattening: each interface yields its classified address
list; `none` propagates the per-record parse panic. -/
def classifyLinks (env : Env) (af : String) :
    List LinkInfo → Option (List (List IpAddr))
  | [] => some []
  | l :: rest =>
    match classifyAddrs env af l with
    | none => none
    | some as => (classifyLinks env af rest).map (fun rs => as :: rs)

/-- The full `addresses` value of lib.rs:79-99: drop loopback interfaces,
classify each remaining interface, flatten. -/
def collectAddresses (env : Env) (af : String) (links : List LinkInfo) :
    Option (List IpAddr) :=
  (classifyLinks env af (links.filter (fun l => l.link_type != "loopback"))).map
    List.flatten

/-- The v6-narrowing map of lib.rs:103-106: every element must be `V6`, any
`V4` hits `unreachable!()` (modelled `none`). -/
def narrowV6 : List IpAddr → Option (List Ipv6Addr)
  | [] => some []
  | .V6 a :: rest => (narrowV6 rest).map (fun as => a :: as)
  | .V4 _ :: _ => none

/-- The v4-narrowing map of lib.rs:120-123: every element must be `V4`, any
`V6` hits `unreachable!()` (modelled `none`). -/
def narrowV4 : List IpAddr → Option (List Ipv4Addr)
  | [] => some []
  | .V4 a :: rest => (narrowV4 rest).map (fun as => a :: as)
  | .V6 _ :: _ => none

/-- `fn get_host_by_name` (lib.rs:65-136). `none` = the call panicked;
`some r` = the call returned `r`. An `ip_addr` failure returns `NotFound`;
an empty narrowed address list returns `NotFound`; otherwise a `Host` with
the queried name, no aliases, and the family-tagged addresses. -/
def getHostByName (env : Env) (name : String) (family : AddressFamily) :
    Option (Response Host) :=
  match runIpAddr env (some name) with
  | .error _ => some .NotFound
  | .ok links =>
    match collectAddresses env (afFilter family) links with
    | none => none
    | some addresses =>
      match family with
      | .IPv6 =>
        match narrowV6 addresses with
        | none => none
        | some v6s =>
          if v6s.isEmpty then some .NotFound
          else some (.Success ⟨name, [], .V6 v6s⟩)
      | _ =>
        match narrowV4 addresses with
        | none => none
        | some v4s =>
          if v4s.isEmpty then some .NotFound
          else some (.Success ⟨name, [], .V4 v4s⟩)

/-- The nested `fn get_for_ns` of `get_all_entries` (lib.rs:36-51): look the
namespace up as v4 and as v6, keep the `Success` payloads, v4 first. A panic
in either lookup propagates. -/
def getForNs (env : Env) (name : String) : Option (List Host) :=
  match getHostByName env name AddressFamily.IPv4 with
  | none => none
  | some recv4 =>
    match getHostByName env name AddressFamily.IPv6 with
    | none => none
    | some recv6 =>
      some ((match recv4 with
              | .Success rec => [rec]
              | _ => []) ++
            (match recv6 with
              | .Success rec => [rec]
              | _ => []))

/-- The per-namespace loop body of `get_all_entries` (lib.rs:60): map
`getForNs` over the namespace names and flatten, propagating panics. -/
def getForAll (env : Env) : List String → Option (List Host)
  | [] => some []
  | n :: rest =>
    match getForNs env n with
    | none => none
    | some hs => (getForAll env rest).map (fun hss => hs ++ hss)

/-- `fn get_all_entries` (lib.rs:35-63): list the namespaces (failure ⇒
`Unavail`), then concatenate the per-namespace entries in listed order. -/
def getAllEntries (env : Env) : Option (Response (List Host)) :=
  match runIpNetnsLs env with
  | .error _ => some .Unavail
  | .ok ns_names =>
    match getForAll env ns_names with
    | none => none
    | some hosts => some (.Success hosts)

/-- The match-arm predicate of the `filter_map` in `get_host_by_addr`
(lib.rs:143-161): a host matches iff its address vector has the same family
as the queried address and contains it. -/
def hostMatches (addr : IpAddr) (host : Host) : Bool :=
  let is_v6 := addr.isV6
  match host.addresses with
  | .V6 addresses =>
    if is_v6 then
      match addr with
      | .V6 a => addresses.contains a
      | _ => false
    else false
  | .V4 addresses =>
    if !is_v6 then
      match addr with
      | .V4 a => addresses.contains a
      | _ => false
    else false

/-- `fn get_host_by_addr` (lib.rs:138-170): enumerate everything; on
`Success`, return the first matching entry or `NotFound`; any non-`Success`
enumeration outcome becomes `Unavail`. -/
def getHostByAddr (env : Env) (addr : IpAddr) : Option (Response Host) :=
  match getAllEntries env with
  | none => none
  | some (.Success all_entries) =>
    some (match all_entries.find? (hostMatches addr) with
          | none => .NotFound
          | some host => .Success host)
  | some _ => some .Unavail

/-! ## Specification-side definitions

These restate the spec's vocabulary independently of the pipeline above, so
theorems can compare the program against them. -/

/-- The qualifying address records of family tag `af` in an interface list,
in the spec's words: records of a non-loopback interface, whose scope is not
link, and whose family tag is `af`; in interface order, then record order. -/
def qualifyingRecords (af : String) (links : List LinkInfo) :
    List LinkAddress :=
  (links.filter (fun l => l.link_type != "loopback")).flatMap
    (fun l => (l.addr_info.filter (fun a => a.family == af)).filter
      (fun a => a.scope != "link"))

/-- Executable hypothesis: every record in `rs` has a literal the IP parser
accepts, and the parsed value's family matches the record's declared family
tag. -/
def consistentFor (env : Env) (rs : List LinkAddress) : Bool :=
  rs.all (fun r =>
    match env.parseIp r.localAddr with
    | some a => a.familyTag == r.family
    | none => false)

/-- The parsed values of a record list (total on consistent inputs). -/
def parsedAddrs (env : Env) (rs : List LinkAddress) : List IpAddr :=
  rs.filterMap (fun r => env.parseIp r.localAddr)

/-- View a family-tagged address vector as a list of `IpAddr` values. -/
def Addresses.toIpList : Addresses → List IpAddr
  | .V4 addrs => addrs.map IpAddr.V4
  | .V6 addrs => addrs.map IpAddr.V6

/-- The family tag of an `Addresses` vector. -/
def Addresses.isV6 : Addresses → Bool
  | .V4 _ => false
  | .V6 _ => true

/-- Spec-side match predicate for reverse lookup: the entry's address set has
the queried address's family and contains the address. -/
def specMatch (addr : IpAddr) (host : Host) : Prop :=
  host.addresses.isV6 = addr.isV6 ∧ addr ∈ host.addresses.toIpList

instance (addr : IpAddr) (host : Host) : Decidable (specMatch addr host) :=
  inferInstanceAs (Decidable (_ ∧ _))

/-- Spec-side per-namespace contribution to full enumeration: the v4 entry
(if the v4 lookup succeeded) followed by the v6 entry (if the v6 lookup
succeeded). -/
def entriesFor (env : Env) (name : String) : List Host :=
  (match getHostByName env name AddressFamily.IPv4 with
    | some (.Success h) => [h]
    | _ => []) ++
  (match getHostByName env name AddressFamily.IPv6 with
    | some (.Success h) => [h]
    | _ => [])

/-! ## Concrete environments

Small concrete environments used to exercise the definitions and to witness
the theorems. `exBlueEnv` is the spec §8 example: namespace `blue` has a
loopback interface and an `eth0` with a global v4 address and a link-scoped
v6 address. -/

/-- The JSON document `ip -json -n blue address` prints in the spec §8
example. -/
def blueAddrJson : Json :=
  .arr
    [.obj [("ifindex", .num 1), ("link_type", .str "loopback"),
           ("addr_info", .arr
             [.obj [("family", .str "inet"), ("local", .str "127.0.0.1"),
                    ("scope", .str "host")]])],
     .obj [("ifindex", .num 2), ("link_type", .str "ether"),
           ("addr_info", .arr
             [.obj [("family", .str "inet"), ("local", .str "10.0.0.5"),
                    ("scope", .str "global")],
              .obj [("family", .str "inet6"), ("local", .str "fe80::1"),
                    ("scope", .str "link")]])]]

/-- The JSON document `ip -json netns ls` prints when only `blue` exists. -/
def blueNetnsJson : Json := .arr [.obj [("name", .str "blue")]]

/-- A concrete model of `str::parse::<IpAddr>` on the literals appearing in
the examples. -/
def exParseIp (s : String) : Option IpAddr :=
  if s = "10.0.0.5" then some (.V4 ⟨10, 0, 0, 5⟩)
  else if s = "127.0.0.1" then some (.V4 ⟨127, 0, 0, 1⟩)
  else if s = "fe80::1" then some (.V6 ⟨0xfe80, 0, 0, 0, 0, 0, 0, 1⟩)
  else if s = "::1" then some (.V6 ⟨0, 0, 0, 0, 0, 0, 0, 1⟩)
  else none

/-- The spec §8 example environment: one namespace `blue`. Byte string `[0]`
is the stdout of the address listing, `[1]` that of the namespace listing. -/
def exBlueEnv : Env where
  ipCmd args :=
    if args = ipAddrArgs (some "blue") then .ok ⟨0, [0]⟩
    else if args = ipNetnsArgs then .ok ⟨0, [1]⟩
    else .error "spawn failure"
  decodeUtf8 bs :=
    if bs = [0] then some "blue-addr-doc"
    else if bs = [1] then some "blue-netns-doc"
    else none
  parseJson s :=
    if s = "blue-addr-doc" then some blueAddrJson
    else if s = "blue-netns-doc" then some blueNetnsJson
    else none
  parseIp := exParseIp

/-- The host entry the blue example resolves to for v4. -/
def blueHost4 : Host := ⟨"blue", [], .V4 [⟨10, 0, 0, 5⟩]⟩

/-- The interface list `exBlueEnv`'s address listing deserializes to. -/
def blueLinks : List LinkInfo :=
  [⟨"loopback", [⟨"inet", "127.0.0.1", "host"⟩]⟩,
   ⟨"ether", [⟨"inet", "10.0.0.5", "global"⟩,
              ⟨"inet6", "fe80::1", "link"⟩]⟩]

/-- A namespace `mix` whose interface carries one well-formed v4 record and
one record declared `"inet"` whose literal `::1` is v6 syntax — the
family-inconsistent case of spec §4.4 step 5. -/
def mixAddrJson : Json :=
  .arr
    [.obj [("link_type", .str "ether"),
           ("addr_info", .arr
             [.obj [("family", .str "inet"), ("local", .str "10.0.0.5"),
                    ("scope", .str "global")],
              .obj [("family", .str "inet"), ("local", .str "::1"),
                    ("scope", .str "global")]])]]

/-- Environment for the `mix` namespace. -/
def exMixEnv : Env where
  ipCmd args :=
    if args = ipAddrArgs (some "mix") then .ok ⟨0, [0]⟩
    else .error "spawn failure"
  decodeUtf8 bs := if bs = [0] then some "mix-addr-doc" else none
  parseJson s := if s = "mix-addr-doc" then some mixAddrJson else none
  parseIp := exParseIp

/-- The interface list `exMixEnv`'s address listing deserializes to. -/
def mixLinks : List LinkInfo :=
  [⟨"ether", [⟨"inet", "10.0.0.5", "global"⟩,
              ⟨"inet", "::1", "global"⟩]⟩]

/-- Override only the namespace-listing invocation of an environment with a
spawn failure. -/
def setNetnsFail (env : Env) (msg : String) : Env :=
  { env with
    ipCmd := fun args =>
      if args = ipNetnsArgs then .error msg else env.ipCmd args }

/-- An environment where the `ip` binary cannot be spawned at all. -/
def exDownEnv : Env where
  ipCmd _ := .error "ip: command not found"
  decodeUtf8 _ := none
  parseJson _ := none
  parseIp := exParseIp

/-- A dual-stack namespace `green`: one non-loopback interface with a global
v4 address and a global v6 address. -/
def greenAddrJson : Json :=
  .arr
    [.obj [("link_type", .str "ether"),
           ("addr_info", .arr
             [.obj [("family", .str "inet"), ("local", .str "10.1.2.3"),
                    ("scope", .str "global")],
              .obj [("family", .str "inet6"), ("local", .str "2001:db8::7"),
                    ("scope", .str "global")]])]]

/-- `ip -json netns ls` output when only `green` exists. -/
def greenNetnsJson : Json := .arr [.obj [("name", .str "green")]]

/-- Extended literal table for the dual-stack example. -/
def exParseIp2 (s : String) : Option IpAddr :=
  if s = "10.1.2.3" then some (.V4 ⟨10, 1, 2, 3⟩)
  else if s = "2001:db8::7" then some (.V6 ⟨0x2001, 0xdb8, 0, 0, 0, 0, 0, 7⟩)
  else exParseIp s

/-- Environment with the single dual-stack namespace `green`. -/
def exGreenEnv : Env where
  ipCmd args :=
    if args = ipAddrArgs (some "green") then .ok ⟨0, [0]⟩
    else if args = ipNetnsArgs then .ok ⟨0, [1]⟩
    else .error "spawn failure"
  decodeUtf8 bs :=
    if bs = [0] then some "green-addr-doc"
    else if bs = [1] then some "green-netns-doc"
    else none
  parseJson s :=
    if s = "green-addr-doc" then some greenAddrJson
    else if s = "green-netns-doc" then some greenNetnsJson
    else none
  parseIp := exParseIp2

/-- The v4 entry of `green`. -/
def greenHost4 : Host := ⟨"green", [], .V4 [⟨10, 1, 2, 3⟩]⟩

/-- The v6 entry of `green`. -/
def greenHost6 : Host := ⟨"green", [], .V6 [⟨0x2001, 0xdb8, 0, 0, 0, 0, 0, 7⟩]⟩

/-- An environment where the `ip` tool runs but exits with status 1 after
printing an empty JSON array on stdout (e.g. a tool that reports its failure
only through the exit code). -/
def exStatusEnv : Env where
  ipCmd _ := .ok ⟨1, [2]⟩
  decodeUtf8 bs := if bs = [2] then some "empty-arr-doc" else none
  parseJson s := if s = "empty-arr-doc" then some (.arr []) else none
  parseIp := exParseIp

/-- Replace the exit status of every invocation of an environment, touching
nothing else. -/
def setStatus (env : Env) (st : Int) : Env :=
  { env with
    ipCmd := fun args => (env.ipCmd args).map (fun o => ⟨st, o.stdout⟩) }

/-- An address vector is family-pure when its addresses are all v4 or all
v6. -/
def familyPure (as : Addresses) : Prop :=
  (∀ x ∈ as.toIpList, x.isV6 = false) ∨ (∀ x ∈ as.toIpList, x.isV6 = true)

/-- The records of `link` that survive the family and scope filters of
lib.rs:88-89. -/
def survivors (af : String) (link : LinkInfo) : List LinkAddress :=
  (link.addr_info.filter (fun a => a.family == af)).filter
    (fun a => a.scope != "link")

/-! ## Helper lemmas about the classification pipeline -/

theorem qualifyingRecords_eq_flatMap (af : String) (links : List LinkInfo) :
    qualifyingRecords af links =
      (links.filter (fun l => l.link_type != "loopback")).flatMap
        (survivors af) := rfl

theorem classifyAddrs_eq (env : Env) (af : String) (link : LinkInfo) :
    classifyAddrs env af link = parseSurvivors env (survivors af link) := rfl

theorem parseSurvivors_eq_of_isSome (env : Env) (rs : List LinkAddress)
    (h : ∀ r ∈ rs, (env.parseIp r.localAddr).isSome = true) :
    parseSurvivors env rs = some (parsedAddrs env rs) := by
  induction rs with
  | nil => rfl
  | cons r rest ih =>
    have hr := h r (by simp)
    obtain ⟨a, ha⟩ := Option.isSome_iff_exists.mp hr
    have hrest := ih (fun x hx => h x (by simp [hx]))
    simp [parseSurvivors, parsedAddrs, ha] at *
    simp [hrest, List.filterMap_cons, ha, parsedAddrs]

theorem parseSurvivors_eq_none (env : Env) (rs : List LinkAddress)
    (r : LinkAddress) (hmem : r ∈ rs)
    (h : env.parseIp r.localAddr = none) :
    parseSurvivors env rs = none := by
  induction rs with
  | nil => cases hmem
  | cons x rest ih =>
    rcases List.mem_cons.mp hmem with hx | hx
    · subst hx
      simp [parseSurvivors, h]
    · cases hpx : env.parseIp x.localAddr with
      | none => simp [parseSurvivors, hpx]
      | some a => simp [parseSurvivors, hpx, ih hx]

theorem classifyLinks_eq_of_isSome (env : Env) (af : String)
    (ls : List LinkInfo)
    (h : ∀ l ∈ ls, ∀ r ∈ survivors af l,
      (env.parseIp r.localAddr).isSome = true) :
    classifyLinks env af ls =
      some (ls.map (fun l => parsedAddrs env (survivors af l))) := by
  induction ls with
  | nil => rfl
  | cons l rest ih =>
    have hl := parseSurvivors_eq_of_isSome env (survivors af l)
      (h l (by simp))
    have hrest := ih (fun x hx => h x (by simp [hx]))
    simp [classifyLinks, classifyAddrs_eq, hl, hrest]

theorem parsedAddrs_append (env : Env) (xs ys : List LinkAddress) :
    parsedAddrs env (xs ++ ys) = parsedAddrs env xs ++ parsedAddrs env ys := by
  simp [parsedAddrs, List.filterMap_append]

theorem collectAddresses_eq_of_isSome (env : Env) (af : String)
    (links : List LinkInfo)
    (h : ∀ r ∈ qualifyingRecords af links,
      (env.parseIp r.localAddr).isSome = true) :
    collectAddresses env af links =
      some (parsedAddrs env (qualifyingRecords af links)) := by
  have hall : ∀ l ∈ links.filter (fun l => l.link_type != "loopback"),
      ∀ r ∈ survivors af l, (env.parseIp r.localAddr).isSome = true := by
    intro l hl r hr
    exact h r (by
      rw [qualifyingRecords_eq_flatMap]
      exact List.mem_flatMap.mpr ⟨l, hl, hr⟩)
  rw [collectAddresses, classifyLinks_eq_of_isSome env af _ hall]
  simp only [Option.map_some']
  congr 1
  rw [qualifyingRecords_eq_flatMap]
  induction (links.filter (fun l => l.link_type != "loopback")) with
  | nil => simp [parsedAddrs]
  | cons l rest ih =>
    simp only [List.map_cons, List.flatten_cons, List.flatMap_cons,
      parsedAddrs_append, ih]

theorem classifyLinks_eq_none (env : Env) (af : String)
    (ls : List LinkInfo) (l : LinkInfo) (hl : l ∈ ls)
    (hpl : classifyAddrs env af l = none) :
    classifyLinks env af ls = none := by
  induction ls with
  | nil => cases hl
  | cons x rest ih =>
    rcases List.mem_cons.mp hl with hx | hx
    · subst hx
      simp [classifyLinks, hpl]
    · cases hcx : classifyAddrs env af x with
      | none => simp [classifyLinks, hcx]
      | some as => simp [classifyLinks, hcx, ih hx]

theorem collectAddresses_eq_none (env : Env) (af : String)
    (links : List LinkInfo) (r : LinkAddress)
    (hmem : r ∈ qualifyingRecords af links)
    (h : env.parseIp r.localAddr = none) :
    collectAddresses env af links = none := by
  rw [qualifyingRecords_eq_flatMap] at hmem
  obtain ⟨l, hl, hr⟩ := List.mem_flatMap.mp hmem
  rw [collectAddresses]
  have hpl : classifyAddrs env af l = none := by
    rw [classifyAddrs_eq]
    exact parseSurvivors_eq_none env _ r hr h
  rw [classifyLinks_eq_none env af _ l hl hpl]
  rfl

theorem narrowV4_map (vs : List Ipv4Addr) :
    narrowV4 (vs.map IpAddr.V4) = some vs := by
  induction vs with
  | nil => rfl
  | cons v rest ih => simp [narrowV4, ih]

theorem narrowV6_map (vs : List Ipv6Addr) :
    narrowV6 (vs.map IpAddr.V6) = some vs := by
  induction vs with
  | nil => rfl
  | cons v rest ih => simp [narrowV6, ih]

theorem narrowV4_eq_some (as : List IpAddr) (vs : List Ipv4Addr)
    (h : narrowV4 as = some vs) : as = vs.map IpAddr.V4 := by
  induction as generalizing vs with
  | nil =>
    simp [narrowV4] at h
    simp [← h]
  | cons a rest ih =>
    cases a with
    | V4 x =>
      simp only [narrowV4] at h
      cases hrest : narrowV4 rest with
      | none => rw [hrest] at h; simp at h
      | some ws =>
        rw [hrest] at h
        simp at h
        rw [← h, List.map_cons]
        exact congrArg (IpAddr.V4 x :: ·) (ih ws hrest)
    | V6 x => simp [narrowV4] at h

theorem narrowV6_eq_some (as : List IpAddr) (vs : List Ipv6Addr)
    (h : narrowV6 as = some vs) : as = vs.map IpAddr.V6 := by
  induction as generalizing vs with
  | nil =>
    simp [narrowV6] at h
    simp [← h]
  | cons a rest ih =>
    cases a with
    | V6 x =>
      simp only [narrowV6] at h
      cases hrest : narrowV6 rest with
      | none => rw [hrest] at h; simp at h
      | some ws =>
        rw [hrest] at h
        simp at h
        rw [← h, List.map_cons]
        exact congrArg (IpAddr.V6 x :: ·) (ih ws hrest)
    | V4 x => simp [narrowV6] at h

theorem narrowV4_of_all_v4 (as : List IpAddr)
    (h : ∀ a ∈ as, a.isV6 = false) :
    ∃ vs, narrowV4 as = some vs ∧ as = vs.map IpAddr.V4 := by
  induction as with
  | nil => exact ⟨[], rfl, rfl⟩
  | cons a rest ih =>
    obtain ⟨vs, hvs, heq⟩ := ih (fun x hx => h x (by simp [hx]))
    cases a with
    | V4 x => exact ⟨x :: vs, by simp [narrowV4, hvs], by simp [heq]⟩
    | V6 x => exact absurd (h (IpAddr.V6 x) (by simp)) (by simp [IpAddr.isV6])

theorem narrowV6_of_all_v6 (as : List IpAddr)
    (h : ∀ a ∈ as, a.isV6 = true) :
    ∃ vs, narrowV6 as = some vs ∧ as = vs.map IpAddr.V6 := by
  induction as with
  | nil => exact ⟨[], rfl, rfl⟩
  | cons a rest ih =>
    obtain ⟨vs, hvs, heq⟩ := ih (fun x hx => h x (by simp [hx]))
    cases a with
    | V6 x => exact ⟨x :: vs, by simp [narrowV6, hvs], by simp [heq]⟩
    | V4 x => exact absurd (h (IpAddr.V4 x) (by simp)) (by simp [IpAddr.isV6])

theorem narrowV4_eq_none (as : List IpAddr) (a : IpAddr) (hmem : a ∈ as)
    (h : a.isV6 = true) : narrowV4 as = none := by
  induction as with
  | nil => cases hmem
  | cons x rest ih =>
    rcases List.mem_cons.mp hmem with hx | hx
    · subst hx
      cases a with
      | V4 _ => simp [IpAddr.isV6] at h
      | V6 _ => rfl
    · cases x with
      | V4 _ => simp [narrowV4, ih hx]
      | V6 _ => rfl

theorem narrowV6_eq_none (as : List IpAddr) (a : IpAddr) (hmem : a ∈ as)
    (h : a.isV6 = false) : narrowV6 as = none := by
  induction as with
  | nil => cases hmem
  | cons x rest ih =>
    rcases List.mem_cons.mp hmem with hx | hx
    · subst hx
      cases a with
      | V6 _ => simp [IpAddr.isV6] at h
      | V4 _ => rfl
    · cases x with
      | V6 _ => simp [narrowV6, ih hx]
      | V4 _ => rfl

theorem IpAddr.familyTag_eq_inet6_iff (a : IpAddr) :
    a.familyTag = "inet6" ↔ a.isV6 = true := by
  cases a <;> simp [IpAddr.familyTag, IpAddr.isV6]

theorem IpAddr.familyTag_eq_inet_iff (a : IpAddr) :
    a.familyTag = "inet" ↔ a.isV6 = false := by
  cases a <;> simp [IpAddr.familyTag, IpAddr.isV6]

/-! ## Consequences of the consistency hypothesis -/

theorem consistentFor_isSome (env : Env) (rs : List LinkAddress)
    (h : consistentFor env rs = true) :
    ∀ r ∈ rs, (env.parseIp r.localAddr).isSome = true := by
  intro r hr
  have := List.all_eq_true.mp h r hr
  cases hp : env.parseIp r.localAddr with
  | none => rw [hp] at this; simp at this
  | some a => rfl

theorem consistentFor_familyTag (env : Env) (rs : List LinkAddress)
    (h : consistentFor env rs = true) :
    ∀ r ∈ rs, ∀ a, env.parseIp r.localAddr = some a →
      a.familyTag = r.family := by
  intro r hr a ha
  have := List.all_eq_true.mp h r hr
  rw [ha] at this
  simpa using this

theorem mem_qualifyingRecords_family (af : String) (links : List LinkInfo)
    (r : LinkAddress) (h : r ∈ qualifyingRecords af links) : r.family = af := by
  rw [qualifyingRecords_eq_flatMap] at h
  obtain ⟨l, _, hr⟩ := List.mem_flatMap.mp h
  have := (List.mem_filter.mp (List.mem_filter.mp hr).1).2
  simpa using this

theorem mem_qualifyingRecords_scope (af : String) (links : List LinkInfo)
    (r : LinkAddress) (h : r ∈ qualifyingRecords af links) :
    r.scope ≠ "link" := by
  rw [qualifyingRecords_eq_flatMap] at h
  obtain ⟨l, _, hr⟩ := List.mem_flatMap.mp h
  have := (List.mem_filter.mp hr).2
  simpa using this

theorem mem_parsedAddrs (env : Env) (rs : List LinkAddress) (a : IpAddr)
    (h : a ∈ parsedAddrs env rs) :
    ∃ r ∈ rs, env.parseIp r.localAddr = some a := by
  obtain ⟨r, hr, hpr⟩ := List.mem_filterMap.mp h
  exact ⟨r, hr, hpr⟩

theorem parsedAddrs_eq_nil_iff (env : Env) (rs : List LinkAddress)
    (h : ∀ r ∈ rs, (env.parseIp r.localAddr).isSome = true) :
    (parsedAddrs env rs = [] ↔ rs = []) := by
  cases rs with
  | nil => simp [parsedAddrs]
  | cons r rest =>
    obtain ⟨a, ha⟩ := Option.isSome_iff_exists.mp (h r (by simp))
    simp [parsedAddrs, List.filterMap_cons, ha]

/-! ## Shape of `get_host_by_name` on consistent environments -/

theorem getHostByName_v6_eq (env : Env) (n : String) (links : List LinkInfo)
    (vs : List Ipv6Addr) (hok : runIpAddr env (some n) = .ok links)
    (hcoll : collectAddresses env "inet6" links = some (vs.map IpAddr.V6)) :
    getHostByName env n .IPv6 =
      if vs.isEmpty then some .NotFound
      else some (.Success ⟨n, [], .V6 vs⟩) := by
  simp only [getHostByName, hok, afFilter, hcoll, narrowV6_map]

theorem getHostByName_v4_eq (env : Env) (n : String) (f : AddressFamily)
    (links : List LinkInfo) (vs : List Ipv4Addr) (hf : f ≠ .IPv6)
    (hok : runIpAddr env (some n) = .ok links)
    (hcoll : collectAddresses env "inet" links = some (vs.map IpAddr.V4)) :
    getHostByName env n f =
      if vs.isEmpty then some .NotFound
      else some (.Success ⟨n, [], .V4 vs⟩) := by
  cases f with
  | IPv6 => exact absurd rfl hf
  | IPv4 => simp only [getHostByName, hok, afFilter, hcoll, narrowV4_map]
  | Unspecified => simp only [getHostByName, hok, afFilter, hcoll, narrowV4_map]

/-- Central success-shape lemma: on a namespace whose qualifying records all
parse consistently, `get_host_by_name` returns `NotFound` exactly when there
are no qualifying records, and otherwise a `Success` entry carrying the
queried name, no aliases, and precisely the parsed qualifying addresses,
tagged with the requested family. -/
theorem getHostByName_spec (env : Env) (n : String) (f : AddressFamily)
    (links : List LinkInfo)
    (hok : runIpAddr env (some n) = .ok links)
    (hcons : consistentFor env (qualifyingRecords (afFilter f) links) = true) :
    (qualifyingRecords (afFilter f) links = [] →
      getHostByName env n f = some .NotFound) ∧
    (qualifyingRecords (afFilter f) links ≠ [] →
      ∃ h : Host, getHostByName env n f = some (.Success h) ∧
        h.name = n ∧ h.aliases = [] ∧
        h.addresses.toIpList =
          parsedAddrs env (qualifyingRecords (afFilter f) links) ∧
        h.addresses.isV6 = (f == AddressFamily.IPv6)) := by
  have hsome := consistentFor_isSome env _ hcons
  have hcoll := collectAddresses_eq_of_isSome env (afFilter f) links hsome
  have hfam : ∀ a ∈ parsedAddrs env (qualifyingRecords (afFilter f) links),
      a.familyTag = afFilter f := by
    intro a ha
    obtain ⟨r, hr, hpr⟩ := mem_parsedAddrs env _ a ha
    rw [consistentFor_familyTag env _ hcons r hr a hpr]
    exact mem_qualifyingRecords_family _ links r hr
  cases hf6 : f == AddressFamily.IPv6 with
  | true =>
    have hfeq : f = .IPv6 := by
      cases f <;> simp_all
    subst hfeq
    have hv6 : ∀ a ∈ parsedAddrs env (qualifyingRecords "inet6" links),
        a.isV6 = true := by
      intro a ha
      exact (IpAddr.familyTag_eq_inet6_iff a).mp (hfam a ha)
    obtain ⟨vs, hvs, heq⟩ := narrowV6_of_all_v6 _ hv6
    rw [show afFilter .IPv6 = "inet6" from rfl] at hcoll ⊢
    rw [heq] at hcoll
    have hmain := getHostByName_v6_eq env n links vs hok hcoll
    constructor
    · intro hQ
      have hP : parsedAddrs env (qualifyingRecords "inet6" links) = [] := by
        rw [hQ]; rfl
      rw [hP] at heq
      have : vs = [] := by
        cases vs with
        | nil => rfl
        | cons v _ => simp at heq
      rw [hmain, this]
      rfl
    · intro hQ
      have hP : parsedAddrs env (qualifyingRecords "inet6" links) ≠ [] := by
        intro hc
        exact hQ ((parsedAddrs_eq_nil_iff env _ hsome).mp hc)
      have hvs_ne : vs ≠ [] := by
        intro hc
        rw [hc] at heq
        exact hP heq
      refine ⟨⟨n, [], .V6 vs⟩, ?_, rfl, rfl, ?_, rfl⟩
      · rw [hmain, if_neg (by simpa [List.isEmpty_iff] using hvs_ne)]
      · simpa [Addresses.toIpList] using heq.symm
  | false =>
    have hfne : f ≠ .IPv6 := by
      cases f <;> simp_all
    have hafeq : afFilter f = "inet" := by
      cases f <;> simp_all [afFilter]
    rw [hafeq] at hcoll hcons hsome hfam ⊢
    have hv4 : ∀ a ∈ parsedAddrs env (qualifyingRecords "inet" links),
        a.isV6 = false := by
      intro a ha
      exact (IpAddr.familyTag_eq_inet_iff a).mp (hfam a ha)
    obtain ⟨vs, hvs, heq⟩ := narrowV4_of_all_v4 _ hv4
    rw [heq] at hcoll
    have hmain := getHostByName_v4_eq env n f links vs hfne hok hcoll
    constructor
    · intro hQ
      have hP : parsedAddrs env (qualifyingRecords "inet" links) = [] := by
        rw [hQ]; rfl
      rw [hP] at heq
      have : vs = [] := by
        cases vs with
        | nil => rfl
        | cons v _ => simp at heq
      rw [hmain, this]
      rfl
    · intro hQ
      have hP : parsedAddrs env (qualifyingRecords "inet" links) ≠ [] := by
        intro hc
        exact hQ ((parsedAddrs_eq_nil_iff env _ hsome).mp hc)
      have hvs_ne : vs ≠ [] := by
        intro hc
        rw [hc] at heq
        exact hP heq
      refine ⟨⟨n, [], .V4 vs⟩, ?_, rfl, rfl, ?_, rfl⟩
      · rw [hmain, if_neg (by simpa [List.isEmpty_iff] using hvs_ne)]
      · simpa [Addresses.toIpList] using heq.symm

/-- Central panic lemma: if some qualifying record is inconsistent (its
literal does not parse, or parses to the other family), the whole
`get_host_by_name` call panics (`none`): nothing is dropped record-wise. -/
theorem getHostByName_panics (env : Env) (n : String) (f : AddressFamily)
    (links : List LinkInfo)
    (hok : runIpAddr env (some n) = .ok links)
    (hbad : consistentFor env (qualifyingRecords (afFilter f) links) = false) :
    getHostByName env n f = none := by
  have hex : ∃ r ∈ qualifyingRecords (afFilter f) links,
      (match env.parseIp r.localAddr with
        | some a => a.familyTag == r.family
        | none => false) = false := by
    by_contra hc
    push_neg at hc
    rw [← Bool.not_eq_true] at hbad
    exact hbad (List.all_eq_true.mpr (fun r hr => by
      have := hc r hr
      simpa using Bool.not_eq_false _ |>.mp (by simpa using this)))
  obtain ⟨r, hr, hrbad⟩ := hex
  cases hp : env.parseIp r.localAddr with
  | none =>
    have hcoll := collectAddresses_eq_none env (afFilter f) links r hr hp
    cases f <;> simp [getHostByName, hok, hcoll]
  | some a =>
    rw [hp] at hrbad
    simp only [beq_eq_false_iff_ne, ne_eq] at hrbad
    have hfam := mem_qualifyingRecords_family (afFilter f) links r hr
    by_cases hall : ∀ x ∈ qualifyingRecords (afFilter f) links,
        (env.parseIp x.localAddr).isSome = true
    · have hcoll := collectAddresses_eq_of_isSome env (afFilter f) links hall
      have hamem : a ∈ parsedAddrs env (qualifyingRecords (afFilter f) links) :=
        List.mem_filterMap.mpr ⟨r, hr, hp⟩
      cases f with
      | IPv6 =>
        have h6 : a.isV6 = false := by
          rcases h : a.isV6 with _ | _
          · rfl
          · exfalso
            apply hrbad
            rw [hfam]
            exact (IpAddr.familyTag_eq_inet6_iff a).mpr h
        have hn := narrowV6_eq_none _ a hamem h6
        simp [getHostByName, hok, hcoll, hn]
      | IPv4 =>
        have h4 : a.isV6 = true := by
          rcases h : a.isV6 with _ | _
          · exfalso
            apply hrbad
            rw [hfam]
            exact (IpAddr.familyTag_eq_inet_iff a).mpr h
          · rfl
        have hn := narrowV4_eq_none _ a hamem h4
        simp [getHostByName, hok, hcoll, hn]
      | Unspecified =>
        have h4 : a.isV6 = true := by
          rcases h : a.isV6 with _ | _
          · exfalso
            apply hrbad
            rw [hfam]
            exact (IpAddr.familyTag_eq_inet_iff a).mpr h
          · rfl
        have hn := narrowV4_eq_none _ a hamem h4
        simp [getHostByName, hok, hcoll, hn]
    · push_neg at hall
      obtain ⟨x, hx, hxbad⟩ := hall
      have hxnone : env.parseIp x.localAddr = none := by
        cases hpx : env.parseIp x.localAddr with
        | none => rfl
        | some _ => rw [hpx] at hxbad; simp at hxbad
      have hcoll := collectAddresses_eq_none env (afFilter f) links x hx hxnone
      cases f <;> simp [getHostByName, hok, hcoll]

/-- Whenever `get_host_by_name` returns `Success`, the entry carries the
queried name, no aliases, a non-empty address list, and the family tag of the
request (v6 iff the request was `IPv6`). -/
theorem getHostByName_success_shape (env : Env) (n : String)
    (f : AddressFamily) (h : Host)
    (hs : getHostByName env n f = some (.Success h)) :
    h.name = n ∧ h.aliases = [] ∧ h.addresses.toIpList ≠ [] ∧
      h.addresses.isV6 = (f == AddressFamily.IPv6) := by
  rw [getHostByName] at hs
  cases hok : runIpAddr env (some n) with
  | error e => rw [hok] at hs; simp at hs
  | ok links =>
    rw [hok] at hs
    simp only at hs
    cases hcoll : collectAddresses env (afFilter f) links with
    | none => rw [hcoll] at hs; simp at hs
    | some as =>
      rw [hcoll] at hs
      cases f with
      | IPv6 =>
        simp only at hs
        cases hn : narrowV6 as with
        | none => rw [hn] at hs; simp at hs
        | some vs =>
          rw [hn] at hs
          simp only at hs
          cases hemp : vs.isEmpty with
          | true => rw [hemp] at hs; simp at hs
          | false =>
            rw [hemp] at hs
            rw [if_neg (by simp)] at hs
            have hh := Response.Success.inj (Option.some.inj hs)
            subst hh
            refine ⟨rfl, rfl, ?_, rfl⟩
            have hvs : vs ≠ [] := by
              intro hc
              rw [hc] at hemp
              simp at hemp
            simpa [Addresses.toIpList] using hvs
      | IPv4 =>
        simp only at hs
        cases hn : narrowV4 as with
        | none => rw [hn] at hs; simp at hs
        | some vs =>
          rw [hn] at hs
          simp only at hs
          cases hemp : vs.isEmpty with
          | true => rw [hemp] at hs; simp at hs
          | false =>
            rw [hemp] at hs
            rw [if_neg (by simp)] at hs
            have hh := Response.Success.inj (Option.some.inj hs)
            subst hh
            refine ⟨rfl, rfl, ?_, rfl⟩
            have hvs : vs ≠ [] := by
              intro hc
              rw [hc] at hemp
              simp at hemp
            simpa [Addresses.toIpList] using hvs
      | Unspecified =>
        simp only at hs
        cases hn : narrowV4 as with
        | none => rw [hn] at hs; simp at hs
        | some vs =>
          rw [hn] at hs
          simp only at hs
          cases hemp : vs.isEmpty with
          | true => rw [hemp] at hs; simp at hs
          | false =>
            rw [hemp] at hs
            rw [if_neg (by simp)] at hs
            have hh := Response.Success.inj (Option.some.inj hs)
            subst hh
            refine ⟨rfl, rfl, ?_, rfl⟩
            have hvs : vs ≠ [] := by
              intro hc
              rw [hc] at hemp
              simp at hemp
            simpa [Addresses.toIpList] using hvs

/-- `get_host_by_name` can only answer `NotFound` or `Success`, never
`Unavail`. -/
theorem getHostByName_ne_unavail (env : Env) (n : String) (f : AddressFamily) :
    getHostByName env n f ≠ some .Unavail := by
  rw [getHostByName]
  cases runIpAddr env (some n) with
  | error e => simp
  | ok links =>
    simp only
    cases collectAddresses env (afFilter f) links with
    | none => simp
    | some as =>
      simp only
      cases f with
      | IPv6 =>
        simp only
        cases narrowV6 as with
        | none => simp
        | some vs =>
          simp only
          split <;> simp
      | IPv4 =>
        simp only
        cases narrowV4 as with
        | none => simp
        | some vs =>
          simp only
          split <;> simp
      | Unspecified =>
        simp only
        cases narrowV4 as with
        | none => simp
        | some vs =>
          simp only
          split <;> simp

/-! ## Congruence in the environment: which collaborators each operation
consults -/

theorem parseSurvivors_congr (env₁ env₂ : Env)
    (hp : env₁.parseIp = env₂.parseIp) (rs : List LinkAddress) :
    parseSurvivors env₁ rs = parseSurvivors env₂ rs := by
  induction rs with
  | nil => rfl
  | cons r rest ih => simp [parseSurvivors, hp, ih]

theorem classifyLinks_congr (env₁ env₂ : Env)
    (hp : env₁.parseIp = env₂.parseIp) (af : String) (ls : List LinkInfo) :
    classifyLinks env₁ af ls = classifyLinks env₂ af ls := by
  induction ls with
  | nil => rfl
  | cons l rest ih =>
    simp [classifyLinks, classifyAddrs_eq, parseSurvivors_congr env₁ env₂ hp,
      ih]

theorem collectAddresses_congr (env₁ env₂ : Env)
    (hp : env₁.parseIp = env₂.parseIp) (af : String) (links : List LinkInfo) :
    collectAddresses env₁ af links = collectAddresses env₂ af links := by
  rw [collectAddresses, collectAddresses,
    classifyLinks_congr env₁ env₂ hp]

/-- `get_host_by_name` consults only the interface-listing invocation and the
address parser: environments that agree on those agree on every forward
lookup. -/
theorem getHostByName_congr (env₁ env₂ : Env) (n : String)
    (f : AddressFamily) (hp : env₁.parseIp = env₂.parseIp)
    (hrun : runIpAddr env₁ (some n) = runIpAddr env₂ (some n)) :
    getHostByName env₁ n f = getHostByName env₂ n f := by
  rw [getHostByName, getHostByName, hrun]
  cases runIpAddr env₂ (some n) with
  | error e => rfl
  | ok links =>
    simp only
    rw [collectAddresses_congr env₁ env₂ hp]

/-- The interface-listing argument vector is never the namespace-listing
argument vector (they have different lengths). -/
theorem ipAddrArgs_ne_ipNetnsArgs (ns : Option String) :
    ipAddrArgs ns ≠ ipNetnsArgs := by
  intro hc
  have := congrArg List.length hc
  cases ns <;> simp [ipAddrArgs, ipNetnsArgs] at this

theorem runIpAddr_setNetnsFail (env : Env) (msg : String) (ns : Option String) :
    runIpAddr (setNetnsFail env msg) ns = runIpAddr env ns := by
  rw [runIpAddr, runIpAddr]
  have h : (setNetnsFail env msg).ipCmd (ipAddrArgs ns) =
      env.ipCmd (ipAddrArgs ns) := by
    simp [setNetnsFail, ipAddrArgs_ne_ipNetnsArgs ns]
  rw [h]
  rfl

theorem runIpNetnsLs_setNetnsFail (env : Env) (msg : String) :
    runIpNetnsLs (setNetnsFail env msg) = .error msg := by
  rw [runIpNetnsLs]
  have h : (setNetnsFail env msg).ipCmd ipNetnsArgs = .error msg := by
    simp [setNetnsFail]
  rw [h]

/-! ## Enumeration helpers -/

theorem getForNs_eq_entriesFor (env : Env) (n : String)
    (h4 : (getHostByName env n .IPv4).isSome = true)
    (h6 : (getHostByName env n .IPv6).isSome = true) :
    getForNs env n = some (entriesFor env n) := by
  obtain ⟨r4, hr4⟩ := Option.isSome_iff_exists.mp h4
  obtain ⟨r6, hr6⟩ := Option.isSome_iff_exists.mp h6
  simp only [getForNs, entriesFor, hr4, hr6]
  cases r4 <;> cases r6 <;> rfl

theorem getForAll_eq_flatMap (env : Env) (names : List String)
    (h : ∀ n ∈ names, (getHostByName env n .IPv4).isSome = true ∧
      (getHostByName env n .IPv6).isSome = true) :
    getForAll env names = some (names.flatMap (entriesFor env)) := by
  induction names with
  | nil => rfl
  | cons n rest ih =>
    have hn := h n (by simp)
    have hns := getForNs_eq_entriesFor env n hn.1 hn.2
    have hrest := ih (fun x hx => h x (by simp [hx]))
    simp [getForAll, hns, hrest]

theorem getAllEntries_eq_flatMap (env : Env) (names : List String)
    (hok : runIpNetnsLs env = .ok names)
    (h : ∀ n ∈ names, (getHostByName env n .IPv4).isSome = true ∧
      (getHostByName env n .IPv6).isSome = true) :
    getAllEntries env =
      some (.Success (names.flatMap (entriesFor env))) := by
  simp [getAllEntries, hok, getForAll_eq_flatMap env names h]

theorem entriesFor_length_le_two (env : Env) (n : String) :
    (entriesFor env n).length ≤ 2 := by
  rw [entriesFor]
  rcases h4 : getHostByName env n .IPv4 with _ | r4 <;>
    rcases h6 : getHostByName env n .IPv6 with _ | r6
  · simp
  · cases r6 <;> simp
  · cases r4 <;> simp
  · cases r4 <;> cases r6 <;> simp

theorem getForNs_mem (env : Env) (n : String) (hs : List Host) (e : Host)
    (h : getForNs env n = some hs) (he : e ∈ hs) :
    getHostByName env n .IPv4 = some (.Success e) ∨
    getHostByName env n .IPv6 = some (.Success e) := by
  rw [getForNs] at h
  cases h4 : getHostByName env n .IPv4 with
  | none => rw [h4] at h; simp at h
  | some r4 =>
    rw [h4] at h
    simp only at h
    cases h6 : getHostByName env n .IPv6 with
    | none => rw [h6] at h; simp at h
    | some r6 =>
      rw [h6] at h
      simp only [Option.some.injEq] at h
      subst h
      rw [List.mem_append] at he
      rcases he with he | he
      · left
        cases r4 with
        | Success rec => simp at he; rw [he]
        | NotFound => simp at he
        | Unavail => simp at he
      · right
        cases r6 with
        | Success rec => simp at he; rw [he]
        | NotFound => simp at he
        | Unavail => simp at he

theorem getForAll_mem (env : Env) (names : List String) (hosts : List Host)
    (e : Host) (h : getForAll env names = some hosts) (he : e ∈ hosts) :
    ∃ n ∈ names, getHostByName env n .IPv4 = some (.Success e) ∨
      getHostByName env n .IPv6 = some (.Success e) := by
  induction names generalizing hosts with
  | nil =>
    rw [getForAll] at h
    simp only [Option.some.injEq] at h
    subst h
    cases he
  | cons n rest ih =>
    rw [getForAll] at h
    cases hns : getForNs env n with
    | none => rw [hns] at h; simp at h
    | some hs =>
      rw [hns] at h
      simp only at h
      cases hrest : getForAll env rest with
      | none => rw [hrest] at h; simp at h
      | some hss =>
        rw [hrest] at h
        simp only [Option.map_some', Option.some.injEq] at h
        subst h
        rw [List.mem_append] at he
        rcases he with he | he
        · exact ⟨n, by simp, getForNs_mem env n hs e hns he⟩
        · obtain ⟨n2, hn2, hres⟩ := ih hss hrest he
          exact ⟨n2, by simp [hn2], hres⟩

theorem getAllEntries_mem (env : Env) (hosts : List Host) (e : Host)
    (h : getAllEntries env = some (.Success hosts)) (he : e ∈ hosts) :
    ∃ names, runIpNetnsLs env = .ok names ∧
      ∃ n ∈ names, getHostByName env n .IPv4 = some (.Success e) ∨
        getHostByName env n .IPv6 = some (.Success e) := by
  rw [getAllEntries] at h
  cases hok : runIpNetnsLs env with
  | error e2 => rw [hok] at h; simp at h
  | ok names =>
    rw [hok] at h
    simp only at h
    cases hfa : getForAll env names with
    | none => rw [hfa] at h; simp at h
    | some hosts2 =>
      rw [hfa] at h
      simp only [Option.some.injEq, Response.Success.injEq] at h
      subst h
      exact ⟨names, rfl, getForAll_mem env names hosts2 e hfa he⟩

/-- A successful reverse lookup returns an element of the full
enumeration. -/
theorem getHostByAddr_mem (env : Env) (addr : IpAddr) (e : Host)
    (h : getHostByAddr env addr = some (.Success e)) :
    ∃ hosts, getAllEntries env = some (.Success hosts) ∧ e ∈ hosts := by
  rw [getHostByAddr] at h
  cases hall : getAllEntries env with
  | none => rw [hall] at h; simp at h
  | some r =>
    rw [hall] at h
    cases r with
    | Success hosts =>
      simp only at h
      cases hf : hosts.find? (hostMatches addr) with
      | none => rw [hf] at h; simp at h
      | some host =>
        rw [hf] at h
        simp only [Option.some.injEq, Response.Success.injEq] at h
        subst h
        exact ⟨hosts, rfl, List.mem_of_find?_eq_some hf⟩
    | NotFound => simp at h
    | Unavail => simp at h

/-! ## Reverse-lookup predicate bridge -/

/-- The boolean filter of `get_host_by_addr` decides exactly the spec's
match predicate: same family and membership. -/
theorem hostMatches_iff_specMatch (addr : IpAddr) (host : Host) :
    hostMatches addr host = true ↔ specMatch addr host := by
  obtain ⟨nm, al, has⟩ := host
  cases has with
  | V4 as =>
    cases addr with
    | V4 a =>
      simp [hostMatches, specMatch, IpAddr.isV6, Addresses.isV6,
        Addresses.toIpList, List.mem_map]
    | V6 a =>
      simp [hostMatches, specMatch, IpAddr.isV6, Addresses.isV6,
        Addresses.toIpList]
  | V6 as =>
    cases addr with
    | V4 a =>
      simp [hostMatches, specMatch, IpAddr.isV6, Addresses.isV6,
        Addresses.toIpList]
    | V6 a =>
      simp [hostMatches, specMatch, IpAddr.isV6, Addresses.isV6,
        Addresses.toIpList, List.mem_map]

/-- Every `Addresses` value the crate can build is family-pure (the vector
type itself separates the families, mirroring the Rust enum). -/
theorem familyPure_all (as : Addresses) : familyPure as := by
  cases as with
  | V4 l =>
    left
    intro x hx
    simp only [Addresses.toIpList, List.mem_map] at hx
    obtain ⟨y, _, rfl⟩ := hx
    rfl
  | V6 l =>
    right
    intro x hx
    simp only [Addresses.toIpList, List.mem_map] at hx
    obtain ⟨y, _, rfl⟩ := hx
    rfl

/-! ## Provenance: where returned addresses come from -/

theorem mem_parseSurvivors (env : Env) (rs : List LinkAddress)
    (out : List IpAddr) (a : IpAddr) (h : parseSurvivors env rs = some out)
    (ha : a ∈ out) : ∃ r ∈ rs, env.parseIp r.localAddr = some a := by
  induction rs generalizing out with
  | nil =>
    rw [parseSurvivors] at h
    simp only [Option.some.injEq] at h
    subst h
    cases ha
  | cons r rest ih =>
    rw [parseSurvivors] at h
    cases hp : env.parseIp r.localAddr with
    | none => rw [hp] at h; simp at h
    | some b =>
      rw [hp] at h
      simp only at h
      cases hrest : parseSurvivors env rest with
      | none => rw [hrest] at h; simp at h
      | some out' =>
        rw [hrest] at h
        simp only [Option.map_some', Option.some.injEq] at h
        subst h
        rcases List.mem_cons.mp ha with hb | hb
        · exact ⟨r, by simp, hb ▸ hp⟩
        · obtain ⟨r2, hr2, hp2⟩ := ih out' hrest hb
          exact ⟨r2, by simp [hr2], hp2⟩

theorem mem_classifyLinks (env : Env) (af : String) (ls : List LinkInfo)
    (parts : List (List IpAddr)) (a : IpAddr)
    (h : classifyLinks env af ls = some parts) (ha : a ∈ parts.flatten) :
    ∃ l ∈ ls, ∃ r ∈ survivors af l, env.parseIp r.localAddr = some a := by
  induction ls generalizing parts with
  | nil =>
    rw [classifyLinks] at h
    simp only [Option.some.injEq] at h
    subst h
    cases ha
  | cons l rest ih =>
    rw [classifyLinks] at h
    cases hcl : classifyAddrs env af l with
    | none => rw [hcl] at h; simp at h
    | some as =>
      rw [hcl] at h
      simp only at h
      cases hrest : classifyLinks env af rest with
      | none => rw [hrest] at h; simp at h
      | some parts' =>
        rw [hrest] at h
        simp only [Option.map_some', Option.some.injEq] at h
        subst h
        rw [List.flatten_cons, List.mem_append] at ha
        rcases ha with ha | ha
        · rw [classifyAddrs_eq] at hcl
          obtain ⟨r, hr, hp⟩ := mem_parseSurvivors env _ as a hcl ha
          exact ⟨l, by simp, r, hr, hp⟩
        · obtain ⟨l2, hl2, hrest2⟩ := ih parts' hrest ha
          exact ⟨l2, by simp [hl2], hrest2⟩

theorem mem_collectAddresses (env : Env) (af : String)
    (links : List LinkInfo) (as : List IpAddr) (a : IpAddr)
    (h : collectAddresses env af links = some as) (ha : a ∈ as) :
    ∃ r ∈ qualifyingRecords af links, env.parseIp r.localAddr = some a := by
  rw [collectAddresses] at h
  cases hcl : classifyLinks env af
      (links.filter (fun l => l.link_type != "loopback")) with
  | none => rw [hcl] at h; simp at h
  | some parts =>
    rw [hcl] at h
    simp only [Option.map_some', Option.some.injEq] at h
    subst h
    obtain ⟨l, hl, r, hr, hp⟩ := mem_classifyLinks env af _ parts a hcl ha
    refine ⟨r, ?_, hp⟩
    rw [qualifyingRecords_eq_flatMap]
    exact List.mem_flatMap.mpr ⟨l, hl, hr⟩

/-- Decompose membership in the qualifying records: the record sits on a
non-loopback interface of the listing, is not link-scoped, and carries the
requested family tag. -/
theorem mem_qualifyingRecords_inv (af : String) (links : List LinkInfo)
    (r : LinkAddress) (h : r ∈ qualifyingRecords af links) :
    ∃ l ∈ links, l.link_type ≠ "loopback" ∧ r ∈ l.addr_info ∧
      r.family = af ∧ r.scope ≠ "link" := by
  rw [qualifyingRecords_eq_flatMap] at h
  obtain ⟨l, hl, hr⟩ := List.mem_flatMap.mp h
  have hl2 := List.mem_filter.mp hl
  have hr2 := List.mem_filter.mp hr
  have hr3 := List.mem_filter.mp hr2.1
  refine ⟨l, hl2.1, by simpa using hl2.2, hr3.1, by simpa using hr3.2,
    by simpa using hr2.2⟩

/-- Inversion of a successful forward lookup: the interface listing
succeeded and the entry's addresses are exactly a successfully classified
list. -/
theorem getHostByName_success_inv (env : Env) (n : String)
    (f : AddressFamily) (h : Host)
    (hs : getHostByName env n f = some (.Success h)) :
    ∃ links as, runIpAddr env (some n) = .ok links ∧
      collectAddresses env (afFilter f) links = some as ∧
      h.addresses.toIpList = as := by
  rw [getHostByName] at hs
  cases hok : runIpAddr env (some n) with
  | error e => rw [hok] at hs; simp at hs
  | ok links =>
    rw [hok] at hs
    simp only at hs
    cases hcoll : collectAddresses env (afFilter f) links with
    | none => rw [hcoll] at hs; simp at hs
    | some as =>
      rw [hcoll] at hs
      refine ⟨links, as, rfl, hcoll, ?_⟩
      cases f with
      | IPv6 =>
        simp only at hs
        cases hn : narrowV6 as with
        | none => rw [hn] at hs; simp at hs
        | some vs =>
          rw [hn] at hs
          simp only at hs
          cases hemp : vs.isEmpty with
          | true => rw [hemp] at hs; simp at hs
          | false =>
            rw [hemp] at hs
            rw [if_neg (by simp)] at hs
            have hh := Response.Success.inj (Option.some.inj hs)
            subst hh
            simpa [Addresses.toIpList] using (narrowV6_eq_some as vs hn).symm
      | IPv4 =>
        simp only at hs
        cases hn : narrowV4 as with
        | none => rw [hn] at hs; simp at hs
        | some vs =>
          rw [hn] at hs
          simp only at hs
          cases hemp : vs.isEmpty with
          | true => rw [hemp] at hs; simp at hs
          | false =>
            rw [hemp] at hs
            rw [if_neg (by simp)] at hs
            have hh := Response.Success.inj (Option.some.inj hs)
            subst hh
            simpa [Addresses.toIpList] using (narrowV4_eq_some as vs hn).symm
      | Unspecified =>
        simp only at hs
        cases hn : narrowV4 as with
        | none => rw [hn] at hs; simp at hs
        | some vs =>
          rw [hn] at hs
          simp only at hs
          cases hemp : vs.isEmpty with
          | true => rw [hemp] at hs; simp at hs
          | false =>
            rw [hemp] at hs
            rw [if_neg (by simp)] at hs
            have hh := Response.Success.inj (Option.some.inj hs)
            subst hh
            simpa [Addresses.toIpList] using (narrowV4_eq_some as vs hn).symm

/-- Full provenance of a successful forward lookup: every returned address
is the parse of a record on a non-loopback interface, not link-scoped, with
the requested family tag. -/
theorem getHostByName_provenance (env : Env) (n : String)
    (f : AddressFamily) (h : Host)
    (hs : getHostByName env n f = some (.Success h)) :
    ∃ links, runIpAddr env (some n) = .ok links ∧
      ∀ a ∈ h.addresses.toIpList,
        ∃ l ∈ links, l.link_type ≠ "loopback" ∧
          ∃ r ∈ l.addr_info, r.family = afFilter f ∧ r.scope ≠ "link" ∧
            env.parseIp r.localAddr = some a := by
  obtain ⟨links, as, hok, hcoll, hlist⟩ := getHostByName_success_inv env n f h hs
  refine ⟨links, hok, ?_⟩
  intro a ha
  rw [hlist] at ha
  obtain ⟨r, hr, hp⟩ := mem_collectAddresses env (afFilter f) links as a hcoll ha
  obtain ⟨l, hl, hlt, hri, hrf, hrs⟩ := mem_qualifyingRecords_inv _ links r hr
  exact ⟨l, hl, hlt, r, hri, hrf, hrs, hp⟩

/-! ## Claim theorems -/

/-- C1: For every namespace name `N` and family `F` (given that the
interface listing succeeds and that every qualifying record's literal parses
to an address of its declared family), forward lookup returns `Success` with
a `HostEntry` whose name is `N`, whose alias list is empty, and whose address
set equals (as a set) the parsed non-loopback, non-link-scope addresses of
family `F` in namespace `N`, when that set is non-empty; it returns
`NotFound` when that set is empty; and it never returns `Success` with an
empty address set. -/
theorem claim_C1_forward_lookup (env : Env) (n : String) (f : AddressFamily)
    (links : List LinkInfo)
    (hok : runIpAddr env (some n) = .ok links)
    (hcons : consistentFor env (qualifyingRecords (afFilter f) links) = true) :
    (qualifyingRecords (afFilter f) links ≠ [] →
      ∃ h : Host, getHostByName env n f = some (.Success h) ∧
        h.name = n ∧ h.aliases = [] ∧
        (∀ a : IpAddr, a ∈ h.addresses.toIpList ↔
          a ∈ parsedAddrs env (qualifyingRecords (afFilter f) links))) ∧
    (qualifyingRecords (afFilter f) links = [] →
      getHostByName env n f = some .NotFound) ∧
    (∀ h : Host, getHostByName env n f = some (.Success h) →
      h.addresses.toIpList ≠ []) := by
  have hspec := getHostByName_spec env n f links hok hcons
  refine ⟨?_, hspec.1, ?_⟩
  · intro hne
    obtain ⟨h, h1, h2, h3, h4, _⟩ := hspec.2 hne
    exact ⟨h, h1, h2, h3, fun a => by rw [h4]⟩
  · intro h hs
    exact (getHostByName_success_shape env n f h hs).2.2.1

/-- Witness for C1: the spec §8 `blue` example, queried for v4. -/
theorem claim_C1_forward_lookup_witness :
    (runIpAddr exBlueEnv (some "blue") = .ok blueLinks ∧
      consistentFor exBlueEnv
        (qualifyingRecords (afFilter .IPv4) blueLinks) = true) ∧
    ((qualifyingRecords (afFilter .IPv4) blueLinks ≠ [] →
      ∃ h : Host, getHostByName exBlueEnv "blue" .IPv4 = some (.Success h) ∧
        h.name = "blue" ∧ h.aliases = [] ∧
        (∀ a : IpAddr, a ∈ h.addresses.toIpList ↔
          a ∈ parsedAddrs exBlueEnv
            (qualifyingRecords (afFilter .IPv4) blueLinks))) ∧
    (qualifyingRecords (afFilter .IPv4) blueLinks = [] →
      getHostByName exBlueEnv "blue" .IPv4 = some .NotFound) ∧
    (∀ h : Host, getHostByName exBlueEnv "blue" .IPv4 = some (.Success h) →
      h.addresses.toIpList ≠ [])) :=
  ⟨⟨rfl, by decide⟩,
    claim_C1_forward_lookup exBlueEnv "blue" .IPv4 blueLinks rfl (by decide)⟩

/-- C2 counterexample: in namespace `mix`, one interface carries the
well-formed record `{family: "inet", local: "10.0.0.5", scope: "global"}`
and the family-inconsistent record `{family: "inet", local: "::1",
scope: "global"}`. The claim says only the bad record is dropped and the
well-formed address still appears in a successful result; in fact the call
panics (`unreachable!()` at lib.rs:122, modelled `none`), so no result is
produced at all — in particular not the predicted
`Success {name: "mix", addresses: [10.0.0.5]}`. -/
theorem claim_C2_counterexample :
    getHostByName exMixEnv "mix" AddressFamily.IPv4 = none ∧
    getHostByName exMixEnv "mix" AddressFamily.IPv4 ≠
      some (.Success ⟨"mix", [], .V4 [⟨10, 0, 0, 5⟩]⟩) := by
  constructor
  · rfl
  · intro hc
    rw [show getHostByName exMixEnv "mix" AddressFamily.IPv4 = none
      from rfl] at hc
    exact Option.noConfusion hc

/-- C2 (amended): if, after the loopback, scope and family filters, some
surviving record's literal does not parse as an address of its declared
family tag, the whole `get_host_by_name` call panics (`.expect` at lib.rs:91
or `unreachable!()` at lib.rs:105/122) and produces no result — the record is
not dropped individually, and the well-formed records in the same list do
not appear either. -/
theorem claim_C2_panic_on_mismatch (env : Env) (n : String)
    (f : AddressFamily) (links : List LinkInfo)
    (hok : runIpAddr env (some n) = .ok links)
    (hbad : consistentFor env (qualifyingRecords (afFilter f) links) = false) :
    getHostByName env n f = none :=
  getHostByName_panics env n f links hok hbad

/-- Witness for amended C2: the `mix` namespace panics on a v4 query. -/
theorem claim_C2_panic_on_mismatch_witness :
    (runIpAddr exMixEnv (some "mix") = .ok mixLinks ∧
      consistentFor exMixEnv
        (qualifyingRecords (afFilter .IPv4) mixLinks) = false) ∧
    getHostByName exMixEnv "mix" AddressFamily.IPv4 = none :=
  ⟨⟨rfl, by decide⟩,
    claim_C2_panic_on_mismatch exMixEnv "mix" .IPv4 mixLinks rfl (by decide)⟩

/-- C5: If the namespace-listing step fails, full enumeration and reverse
lookup both return `Unavail`; forward lookup is unaffected, because it never
consults the namespace-listing invocation (overriding that invocation with a
failure changes no forward-lookup result); and independently, an
interface-listing failure makes forward lookup return `NotFound`, not
`Unavail`. -/
theorem claim_C5_failure_propagation (env : Env) (msg e : String)
    (n : String) (f : AddressFamily) (a : IpAddr) :
    (runIpNetnsLs env = .error e →
      getAllEntries env = some .Unavail ∧
      getHostByAddr env a = some .Unavail) ∧
    getHostByName (setNetnsFail env msg) n f = getHostByName env n f ∧
    (runIpAddr env (some n) = .error e →
      getHostByName env n f = some .NotFound) := by
  refine ⟨?_, ?_, ?_⟩
  · intro herr
    have hall : getAllEntries env = some .Unavail := by
      simp [getAllEntries, herr]
    refine ⟨hall, ?_⟩
    rw [getHostByAddr, hall]
  · exact getHostByName_congr _ _ n f rfl (runIpAddr_setNetnsFail env msg _)
  · intro herr
    simp [getHostByName, herr]

/-- Witness for C5: an environment where the `ip` binary cannot be
spawned. -/
theorem claim_C5_failure_propagation_witness :
    (runIpNetnsLs exDownEnv = .error "ip: command not found" ∧
      runIpAddr exDownEnv (some "blue") = .error "ip: command not found") ∧
    ((runIpNetnsLs exDownEnv = .error "ip: command not found" →
        getAllEntries exDownEnv = some .Unavail ∧
        getHostByAddr exDownEnv (.V4 ⟨10, 0, 0, 5⟩) = some .Unavail) ∧
      getHostByName (setNetnsFail exDownEnv "fail") "blue" .IPv4 =
        getHostByName exDownEnv "blue" .IPv4 ∧
      (runIpAddr exDownEnv (some "blue") = .error "ip: command not found" →
        getHostByName exDownEnv "blue" .IPv4 = some .NotFound)) :=
  ⟨⟨rfl, rfl⟩,
    claim_C5_failure_propagation exDownEnv "fail" "ip: command not found"
      "blue" .IPv4 (.V4 ⟨10, 0, 0, 5⟩)⟩

/-- C10: For every name, `get_host_by_name` with any family other than
`IPv6` — including the `Unspecified` catch-all — behaves exactly as an IPv4
lookup: same result as the `IPv4` query in the same environment, the family
filter string is `"inet"`, and any returned response is either `NotFound` or
a `Success` whose address vector is V4-tagged. -/
theorem claim_C10_non_v6_behaves_as_v4 (env : Env) (n : String)
    (f : AddressFamily) (hf : f ≠ .IPv6) :
    getHostByName env n f = getHostByName env n .IPv4 ∧
    afFilter f = "inet" ∧
    (∀ r : Response Host, getHostByName env n f = some r →
      r = .NotFound ∨
      ∃ h : Host, r = .Success h ∧ h.addresses.isV6 = false) := by
  refine ⟨?_, ?_, ?_⟩
  · cases hok : runIpAddr env (some n) with
    | error e =>
      cases f with
      | IPv6 => exact absurd rfl hf
      | IPv4 => rfl
      | Unspecified => simp [getHostByName, hok]
    | ok links =>
      cases f with
      | IPv6 => exact absurd rfl hf
      | IPv4 => rfl
      | Unspecified => simp [getHostByName, hok, afFilter]
  · cases f with
    | IPv6 => exact absurd rfl hf
    | IPv4 => rfl
    | Unspecified => rfl
  · intro r hr
    cases r with
    | NotFound => exact Or.inl rfl
    | Success h =>
      refine Or.inr ⟨h, rfl, ?_⟩
      have := (getHostByName_success_shape env n f h hr).2.2.2
      rw [this]
      cases f with
      | IPv6 => exact absurd rfl hf
      | IPv4 => rfl
      | Unspecified => rfl
    | Unavail => exact absurd hr (getHostByName_ne_unavail env n f)

/-- Witness for C10: the `Unspecified` family on the blue example resolves
exactly like v4. -/
theorem claim_C10_non_v6_behaves_as_v4_witness :
    (AddressFamily.Unspecified ≠ AddressFamily.IPv6) ∧
    (getHostByName exBlueEnv "blue" .Unspecified =
        getHostByName exBlueEnv "blue" .IPv4 ∧
      afFilter .Unspecified = "inet" ∧
      (∀ r : Response Host,
        getHostByName exBlueEnv "blue" .Unspecified = some r →
        r = .NotFound ∨
        ∃ h : Host, r = .Success h ∧ h.addresses.isV6 = false)) :=
  ⟨by decide,
    claim_C10_non_v6_behaves_as_v4 exBlueEnv "blue" .Unspecified (by decide)⟩

/-- C3: Full enumeration visits namespaces in the order listed by the
namespace enumerator; for each namespace it attempts a v4 lookup then a v6
lookup, appends only `Success` results (the v4 entry preceding the v6 entry
of the same namespace, which is what `entriesFor` spells out), contributes
nothing for a namespace that misses on both families, and hence each
namespace yields 0, 1, or 2 entries. Stated under the hypotheses that the
namespace listing succeeds and no per-namespace lookup panics. -/
theorem claim_C3_full_enumeration (env : Env) (names : List String)
    (hok : runIpNetnsLs env = .ok names)
    (hnp : ∀ n ∈ names, (getHostByName env n .IPv4).isSome = true ∧
      (getHostByName env n .IPv6).isSome = true) :
    getAllEntries env =
      some (.Success (names.flatMap (entriesFor env))) ∧
    (∀ n : String, (entriesFor env n).length ≤ 2) ∧
    (∀ n : String, getHostByName env n .IPv4 = some .NotFound →
      getHostByName env n .IPv6 = some .NotFound → entriesFor env n = []) ∧
    (∀ (n : String) (h4 h6 : Host),
      getHostByName env n .IPv4 = some (.Success h4) →
      getHostByName env n .IPv6 = some (.Success h6) →
      entriesFor env n = [h4, h6]) := by
  refine ⟨getAllEntries_eq_flatMap env names hok hnp,
    entriesFor_length_le_two env, ?_, ?_⟩
  · intro n e4 e6
    simp [entriesFor, e4, e6]
  · intro n h4 h6 e4 e6
    simp [entriesFor, e4, e6]

/-- Witness for C3: the dual-stack `green` environment enumerates to exactly
its v4 entry followed by its v6 entry. -/
theorem claim_C3_full_enumeration_witness :
    (runIpNetnsLs exGreenEnv = .ok ["green"] ∧
      (∀ n ∈ ["green"], (getHostByName exGreenEnv n .IPv4).isSome = true ∧
        (getHostByName exGreenEnv n .IPv6).isSome = true)) ∧
    (getAllEntries exGreenEnv =
        some (.Success (["green"].flatMap (entriesFor exGreenEnv))) ∧
      (∀ n : String, (entriesFor exGreenEnv n).length ≤ 2) ∧
      (∀ n : String, getHostByName exGreenEnv n .IPv4 = some .NotFound →
        getHostByName exGreenEnv n .IPv6 = some .NotFound →
        entriesFor exGreenEnv n = []) ∧
      (∀ (n : String) (h4 h6 : Host),
        getHostByName exGreenEnv n .IPv4 = some (.Success h4) →
        getHostByName exGreenEnv n .IPv6 = some (.Success h6) →
        entriesFor exGreenEnv n = [h4, h6])) :=
  ⟨⟨rfl, by decide⟩,
    claim_C3_full_enumeration exGreenEnv ["green"] rfl (by decide)⟩

/-- C4: For every address, reverse lookup returns `Success e` iff `e` is the
first entry of the full enumeration whose address set has the address's
family and contains the address ("first" spelled as a decomposition
`entries = pre ++ e :: post` with no match in `pre`); an entry of the other
family never matches; and when no entry matches the result is `NotFound`.
Stated under the hypothesis that the full enumeration succeeds. -/
theorem claim_C4_reverse_lookup (env : Env) (addr : IpAddr)
    (entries : List Host)
    (hall : getAllEntries env = some (.Success entries)) :
    (∀ e : Host, getHostByAddr env addr = some (.Success e) ↔
      (specMatch addr e ∧ ∃ pre post, entries = pre ++ e :: post ∧
        ∀ x ∈ pre, ¬ specMatch addr x)) ∧
    ((∀ e ∈ entries, ¬ specMatch addr e) →
      getHostByAddr env addr = some .NotFound) ∧
    (∀ e : Host, e.addresses.isV6 ≠ addr.isV6 → ¬ specMatch addr e) := by
  have hbase : getHostByAddr env addr =
      some (match entries.find? (hostMatches addr) with
            | none => .NotFound
            | some host => .Success host) := by
    rw [getHostByAddr, hall]
  refine ⟨?_, ?_, ?_⟩
  · intro e
    constructor
    · intro hs
      rw [hbase] at hs
      cases hf : entries.find? (hostMatches addr) with
      | none => rw [hf] at hs; simp at hs
      | some host =>
        rw [hf] at hs
        simp only [Option.some.injEq] at hs
        have he : host = e := Response.Success.inj hs
        subst he
        obtain ⟨hp, pre, post, heq, hpre⟩ := List.find?_eq_some.mp hf
        refine ⟨(hostMatches_iff_specMatch addr host).mp hp,
          pre, post, heq, ?_⟩
        intro x hx hsp
        have hb := hpre x hx
        rw [← hostMatches_iff_specMatch] at hsp
        simp [hsp] at hb
    · rintro ⟨hsp, pre, post, heq, hpre⟩
      have hf : entries.find? (hostMatches addr) = some e := by
        apply List.find?_eq_some.mpr
        refine ⟨(hostMatches_iff_specMatch addr e).mpr hsp,
          pre, post, heq, ?_⟩
        intro x hx
        have hnx := hpre x hx
        cases hcm : hostMatches addr x with
        | false => simp
        | true =>
          exact absurd ((hostMatches_iff_specMatch addr x).mp hcm) hnx
      rw [hbase, hf]
  · intro hnone
    have hf : entries.find? (hostMatches addr) = none := by
      apply List.find?_eq_none.mpr
      intro x hx
      rw [hostMatches_iff_specMatch]
      exact hnone x hx
    rw [hbase, hf]
  · intro e hne hsp
    exact hne hsp.1

/-- Witness for C4: in the `green` environment, the reverse lookup of the v4
address finds the v4 entry first. -/
theorem claim_C4_reverse_lookup_witness :
    getAllEntries exGreenEnv = some (.Success [greenHost4, greenHost6]) ∧
    ((∀ e : Host,
        getHostByAddr exGreenEnv (.V4 ⟨10, 1, 2, 3⟩) = some (.Success e) ↔
        (specMatch (.V4 ⟨10, 1, 2, 3⟩) e ∧
          ∃ pre post, [greenHost4, greenHost6] = pre ++ e :: post ∧
            ∀ x ∈ pre, ¬ specMatch (.V4 ⟨10, 1, 2, 3⟩) x)) ∧
      ((∀ e ∈ [greenHost4, greenHost6],
          ¬ specMatch (.V4 ⟨10, 1, 2, 3⟩) e) →
        getHostByAddr exGreenEnv (.V4 ⟨10, 1, 2, 3⟩) = some .NotFound) ∧
      (∀ e : Host, e.addresses.isV6 ≠ (IpAddr.V4 ⟨10, 1, 2, 3⟩).isV6 →
        ¬ specMatch (.V4 ⟨10, 1, 2, 3⟩) e)) :=
  ⟨rfl, claim_C4_reverse_lookup exGreenEnv (.V4 ⟨10, 1, 2, 3⟩)
    [greenHost4, greenHost6] rfl⟩

/-- C6: Every `HostEntry` returned by any of the three operations is
family-pure — its address vector is all-v4 or all-v6 by construction of the
`Addresses` type the crate uses — and a dual-stack namespace yields two
distinct entries, the v4-tagged one and the v6-tagged one, never one mixed
value. -/
theorem claim_C6_family_purity (env : Env) (n : String) (f : AddressFamily)
    (addr : IpAddr) (h h4 h6 : Host) (hosts : List Host) :
    (getHostByName env n f = some (.Success h) → familyPure h.addresses) ∧
    (getAllEntries env = some (.Success hosts) → h ∈ hosts →
      familyPure h.addresses) ∧
    (getHostByAddr env addr = some (.Success h) → familyPure h.addresses) ∧
    (getHostByName env n .IPv4 = some (.Success h4) →
      getHostByName env n .IPv6 = some (.Success h6) →
      getForNs env n = some [h4, h6] ∧
      h4.addresses.isV6 = false ∧ h6.addresses.isV6 = true ∧ h4 ≠ h6) := by
  refine ⟨fun _ => familyPure_all _, fun _ _ => familyPure_all _,
    fun _ => familyPure_all _, ?_⟩
  intro e4 e6
  have s4 := (getHostByName_success_shape env n .IPv4 h4 e4).2.2.2
  have s6 := (getHostByName_success_shape env n .IPv6 h6 e6).2.2.2
  simp only [show (AddressFamily.IPv4 == AddressFamily.IPv6) = false
    from rfl] at s4
  simp only [show (AddressFamily.IPv6 == AddressFamily.IPv6) = true
    from rfl] at s6
  refine ⟨by simp [getForNs, e4, e6], s4, s6, ?_⟩
  intro hc
  rw [hc] at s4
  rw [s4] at s6
  exact absurd s6 (by simp)

/-- Witness for C6: the dual-stack `green` namespace yields its v4 entry and
its v6 entry as two family-pure values. -/
theorem claim_C6_family_purity_witness :
    (getHostByName exGreenEnv "green" .IPv4 = some (.Success greenHost4) ∧
      getHostByName exGreenEnv "green" .IPv6 = some (.Success greenHost6)) ∧
    familyPure greenHost4.addresses ∧
    (getForNs exGreenEnv "green" = some [greenHost4, greenHost6] ∧
      greenHost4.addresses.isV6 = false ∧
      greenHost6.addresses.isV6 = true ∧ greenHost4 ≠ greenHost6) :=
  ⟨⟨rfl, rfl⟩,
    (claim_C6_family_purity exGreenEnv "green" .IPv4 (.V4 ⟨10, 1, 2, 3⟩)
      greenHost4 greenHost4 greenHost6 []).1 rfl,
    (claim_C6_family_purity exGreenEnv "green" .IPv4 (.V4 ⟨10, 1, 2, 3⟩)
      greenHost4 greenHost4 greenHost6 []).2.2.2 rfl rfl⟩

/-- C7: For every operation and every input, every address of every returned
`HostEntry` is contributed by an interface whose class is not loopback: it
is the parse of an address record sitting on a non-loopback interface of the
corresponding interface listing (so loopback-class interfaces never
contribute addresses), for either family. -/
theorem claim_C7_no_loopback (env : Env) (n : String) (f : AddressFamily)
    (h : Host) (a addr : IpAddr) (hosts : List Host) :
    (getHostByName env n f = some (.Success h) →
      a ∈ h.addresses.toIpList →
      ∃ links, runIpAddr env (some n) = .ok links ∧
        ∃ l ∈ links, l.link_type ≠ "loopback" ∧
          ∃ r ∈ l.addr_info, env.parseIp r.localAddr = some a) ∧
    (getAllEntries env = some (.Success hosts) → h ∈ hosts →
      a ∈ h.addresses.toIpList →
      ∃ n2 links, runIpAddr env (some n2) = .ok links ∧
        ∃ l ∈ links, l.link_type ≠ "loopback" ∧
          ∃ r ∈ l.addr_info, env.parseIp r.localAddr = some a) ∧
    (getHostByAddr env addr = some (.Success h) →
      a ∈ h.addresses.toIpList →
      ∃ n2 links, runIpAddr env (some n2) = .ok links ∧
        ∃ l ∈ links, l.link_type ≠ "loopback" ∧
          ∃ r ∈ l.addr_info, env.parseIp r.localAddr = some a) := by
  refine ⟨?_, ?_, ?_⟩
  · intro hs ha
    obtain ⟨links, hok, hprov⟩ := getHostByName_provenance env n f h hs
    obtain ⟨l, hl, hlt, r, hri, _, _, hp⟩ := hprov a ha
    exact ⟨links, hok, l, hl, hlt, r, hri, hp⟩
  · intro hall hmem ha
    obtain ⟨names, _, n2, _, hres⟩ := getAllEntries_mem env hosts h hall hmem
    rcases hres with hres | hres <;>
    · obtain ⟨links, hok, hprov⟩ := getHostByName_provenance env n2 _ h hres
      obtain ⟨l, hl, hlt, r, hri, _, _, hp⟩ := hprov a ha
      exact ⟨n2, links, hok, l, hl, hlt, r, hri, hp⟩
  · intro hs ha
    obtain ⟨hosts2, hall, hmem⟩ := getHostByAddr_mem env addr h hs
    obtain ⟨names, _, n2, _, hres⟩ := getAllEntries_mem env hosts2 h hall hmem
    rcases hres with hres | hres <;>
    · obtain ⟨links, hok, hprov⟩ := getHostByName_provenance env n2 _ h hres
      obtain ⟨l, hl, hlt, r, hri, _, _, hp⟩ := hprov a ha
      exact ⟨n2, links, hok, l, hl, hlt, r, hri, hp⟩

/-- Witness for C7: the blue example's returned v4 address is contributed by
the non-loopback `ether` interface. -/
theorem claim_C7_no_loopback_witness :
    (getHostByName exBlueEnv "blue" .IPv4 = some (.Success blueHost4) ∧
      IpAddr.V4 ⟨10, 0, 0, 5⟩ ∈ blueHost4.addresses.toIpList) ∧
    (∃ links, runIpAddr exBlueEnv (some "blue") = .ok links ∧
      ∃ l ∈ links, l.link_type ≠ "loopback" ∧
        ∃ r ∈ l.addr_info,
          exBlueEnv.parseIp r.localAddr = some (.V4 ⟨10, 0, 0, 5⟩)) :=
  ⟨⟨rfl, by decide⟩,
    (claim_C7_no_loopback exBlueEnv "blue" .IPv4 blueHost4
      (.V4 ⟨10, 0, 0, 5⟩) (.V4 ⟨10, 0, 0, 5⟩) []).1 rfl (by decide)⟩

/-- C8: For every operation and every input, every address of every returned
`HostEntry` comes from an address record whose scope is not `"link"`: no
link-scoped record ever contributes an address, for either family. -/
theorem claim_C8_no_link_scope (env : Env) (n : String) (f : AddressFamily)
    (h : Host) (a addr : IpAddr) (hosts : List Host) :
    (getHostByName env n f = some (.Success h) →
      a ∈ h.addresses.toIpList →
      ∃ links, runIpAddr env (some n) = .ok links ∧
        ∃ l ∈ links, ∃ r ∈ l.addr_info, r.scope ≠ "link" ∧
          env.parseIp r.localAddr = some a) ∧
    (getAllEntries env = some (.Success hosts) → h ∈ hosts →
      a ∈ h.addresses.toIpList →
      ∃ n2 links, runIpAddr env (some n2) = .ok links ∧
        ∃ l ∈ links, ∃ r ∈ l.addr_info, r.scope ≠ "link" ∧
          env.parseIp r.localAddr = some a) ∧
    (getHostByAddr env addr = some (.Success h) →
      a ∈ h.addresses.toIpList →
      ∃ n2 links, runIpAddr env (some n2) = .ok links ∧
        ∃ l ∈ links, ∃ r ∈ l.addr_info, r.scope ≠ "link" ∧
          env.parseIp r.localAddr = some a) := by
  refine ⟨?_, ?_, ?_⟩
  · intro hs ha
    obtain ⟨links, hok, hprov⟩ := getHostByName_provenance env n f h hs
    obtain ⟨l, hl, _, r, hri, _, hsc, hp⟩ := hprov a ha
    exact ⟨links, hok, l, hl, r, hri, hsc, hp⟩
  · intro hall hmem ha
    obtain ⟨names, _, n2, _, hres⟩ := getAllEntries_mem env hosts h hall hmem
    rcases hres with hres | hres <;>
    · obtain ⟨links, hok, hprov⟩ := getHostByName_provenance env n2 _ h hres
      obtain ⟨l, hl, _, r, hri, _, hsc, hp⟩ := hprov a ha
      exact ⟨n2, links, hok, l, hl, r, hri, hsc, hp⟩
  · intro hs ha
    obtain ⟨hosts2, hall, hmem⟩ := getHostByAddr_mem env addr h hs
    obtain ⟨names, _, n2, _, hres⟩ := getAllEntries_mem env hosts2 h hall hmem
    rcases hres with hres | hres <;>
    · obtain ⟨links, hok, hprov⟩ := getHostByName_provenance env n2 _ h hres
      obtain ⟨l, hl, _, r, hri, _, hsc, hp⟩ := hprov a ha
      exact ⟨n2, links, hok, l, hl, r, hri, hsc, hp⟩

/-- Witness for C8: the blue example's returned v4 address comes from the
global-scoped record, not the link-scoped one. -/
theorem claim_C8_no_link_scope_witness :
    (getHostByName exBlueEnv "blue" .IPv4 = some (.Success blueHost4) ∧
      IpAddr.V4 ⟨10, 0, 0, 5⟩ ∈ blueHost4.addresses.toIpList) ∧
    (∃ links, runIpAddr exBlueEnv (some "blue") = .ok links ∧
      ∃ l ∈ links, ∃ r ∈ l.addr_info, r.scope ≠ "link" ∧
        exBlueEnv.parseIp r.localAddr = some (.V4 ⟨10, 0, 0, 5⟩)) :=
  ⟨⟨rfl, by decide⟩,
    (claim_C8_no_link_scope exBlueEnv "blue" .IPv4 blueHost4
      (.V4 ⟨10, 0, 0, 5⟩) (.V4 ⟨10, 0, 0, 5⟩) []).1 rfl (by decide)⟩

/-- C9 counterexample: `exStatusEnv` models an `ip` tool that exits with
status 1 but prints the JSON array `[]` on stdout. The claim says a non-zero
exit is a call-level failure; in fact both gateway functions ignore
`output.status` entirely (it is never read in lib.rs:192-220 and
lib.rs:232-259) and return a successful empty listing built from the printed
output. -/
theorem claim_C9_counterexample :
    exStatusEnv.ipCmd ipNetnsArgs = .ok ⟨1, [2]⟩ ∧
    runIpNetnsLs exStatusEnv = .ok [] ∧
    runIpAddr exStatusEnv (some "blue") = .ok [] :=
  ⟨rfl, rfl, rfl⟩

/-- C9 (amended): the exit status of the spawned tool is never consulted —
replacing the status of every invocation changes no gateway result; a call
fails only when spawning fails or stdout is unreadable or not a JSON array.
A non-zero exit whose stdout parses is a successful call. -/
theorem claim_C9_status_ignored (env : Env) (st : Int) (ns : Option String) :
    runIpAddr (setStatus env st) ns = runIpAddr env ns ∧
    runIpNetnsLs (setStatus env st) = runIpNetnsLs env := by
  constructor
  · rw [runIpAddr, runIpAddr]
    simp only [setStatus]
    cases h : env.ipCmd (ipAddrArgs ns) with
    | error e => rfl
    | ok o => rfl
  · rw [runIpNetnsLs, runIpNetnsLs]
    simp only [setStatus]
    cases h : env.ipCmd ipNetnsArgs with
    | error e => rfl
    | ok o => rfl

end NssNetns
